import Mathlib

/-
Verification development for the two Streamlit utilities of this repository:
  * src/dbt-trs-generator/dbt-trs-generator.py  (type normalizer + SQL/YAML generator)
  * src/streamlit_data_masking/data_masking.py  (masking dispatcher + streaming writer)

The Python code is shallowly embedded: every definition below is a direct
translation of the corresponding source function.  Strings are Lean `String`s
(lists of unicode chars), pandas cells are `Option String` (`none` = NaN),
nullable machinery is explicit.  External-library behaviour that the source
relies on (Python slicing, `str.upper`, `re.match` of the one fixed pattern,
pandas `astype(str)`) is embedded with its actual semantics, documented at the
point of use.
-/

set_option maxRecDepth 10000

/- ---------------------------------------------------------------------
   Python string primitives
--------------------------------------------------------------------- -/

/-- Prefix test: `pre` is a prefix of `hay`, character-wise. -/
def startsWithL : List Char → List Char → Bool
  | _, [] => true
  | [], _ :: _ => false
  | c :: cs, d :: ds => c == d && startsWithL cs ds

/-- Python's substring test `needle in hay`, on character lists. -/
def containsSubL : List Char → List Char → Bool
  | [], needle => needle.isEmpty
  | c :: t, needle => startsWithL (c :: t) needle || containsSubL t needle

/-- Python `needle in hay` on strings. -/
def containsSubS (hay needle : String) : Bool :=
  containsSubL hay.data needle.data

/-- Python `s.endswith(suf)`. -/
def endsWithS (s suf : String) : Bool :=
  startsWithL s.data.reverse suf.data.reverse

/-- Python `s.upper()`.  `Char.toUpper` uppercases ASCII letters and leaves
every other character (in particular the Japanese keywords used by the
sources) unchanged, which coincides with `str.upper` on the character set
these tools handle. -/
def pyUpperS (s : String) : String := ⟨s.data.map Char.toUpper⟩

/-- Python `s.lower()` (same remark as for `pyUpperS`). -/
def pyLowerS (s : String) : String := ⟨s.data.map Char.toLower⟩

/-- Whitespace stripped by Python `str.strip` (the ASCII cases that can occur
in the spreadsheet / CSV cells these tools read). -/
def isPySpace (c : Char) : Bool :=
  c == ' ' || c == '\t' || c == '\n' || c == '\r'

/-- Python `s.strip()`. -/
def pyStripS (s : String) : String :=
  ⟨((s.data.dropWhile isPySpace).reverse.dropWhile isPySpace).reverse⟩

/-- Python slice `x[:n]`. -/
def pyHeadSlice (x : String) (n : Nat) : String := ⟨x.data.take n⟩

/-- Python slice `x[-n:]`.  For `n = 0` the Python expression degenerates to
`x[0:]`, i.e. the whole string; for `n > 0` it clamps at the left end. -/
def pyTailSlice (x : String) (n : Nat) : String :=
  if n = 0 then x else ⟨x.data.drop (x.data.length - n)⟩

/-- Python `c * n` for a one-character string `c`. -/
def replChar (c : Char) (n : Nat) : String := ⟨List.replicate n c⟩

/- ---------------------------------------------------------------------
   dbt-trs-generator: type normalizer
   (src/dbt-trs-generator/dbt-trs-generator.py, convert_excel_type_to_snowflake)
--------------------------------------------------------------------- -/

def isUpperAZ (c : Char) : Bool := 'A' ≤ c && c ≤ 'Z'

def isDigit09 (c : Char) : Bool := '0' ≤ c && c ≤ '9'

/-- Embedding of `re.match(r'([A-Z]+)\((\d+)\)', s)`.  `re.match` anchors at
the start of the string only: it succeeds iff `s` begins with a nonempty run
of capital letters, then `'('`, a nonempty run of digits, and `')'`; any
trailing characters are ignored.  The two captured groups are returned. -/
def sizedTypeMatch (s : String) : Option (String × String) :=
  let letters := s.data.takeWhile isUpperAZ
  let rest := s.data.dropWhile isUpperAZ
  if letters.isEmpty then none
  else
    match rest with
    | '(' :: r2 =>
      let digits := r2.takeWhile isDigit09
      let r3 := r2.dropWhile isDigit09
      if digits.isEmpty then none
      else
        match r3 with
        | ')' :: _ => some (⟨letters⟩, ⟨digits⟩)
        | _ => none
    | _ => none

/-- The `type_mapping` dict of the source, in insertion order (Python dicts
iterate in insertion order). -/
def type_mapping : List (String × String) :=
  [("文字列", "varchar"), ("VARCHAR", "varchar"), ("CHAR", "varchar"),
   ("TEXT", "varchar"), ("数値", "number"), ("NUMBER", "number"),
   ("INT", "number"), ("INTEGER", "number"), ("DECIMAL", "number"),
   ("NUMERIC", "number"), ("FLOAT", "float"), ("DOUBLE", "double"),
   ("日付", "date"), ("DATE", "date"), ("日時", "timestamp"),
   ("DATETIME", "timestamp"), ("TIMESTAMP", "timestamp"), ("時刻", "time"),
   ("TIME", "time"), ("BOOLEAN", "boolean"), ("BOOL", "boolean")]

/-- The keyword loop of `convert_excel_type_to_snowflake`:
`for key, value in type_mapping.items(): if key in excel_type_upper or
excel_type_upper in key: ...`.  Note that the `'(' not in excel_type` test of
the source looks at the original (unstripped, original-case) input. -/
def keywordScanAux (orig u : String) : List (String × String) → String
  | [] => "varchar(100)"
  | (k, v) :: rest =>
    if containsSubS u k || containsSubS k u then
      if v == "varchar" && !containsSubS orig "(" then "varchar(100)" else v
    else keywordScanAux orig u rest

/-- Embedding of `convert_excel_type_to_snowflake` (source lines 6-54). -/
def convert_excel_type_to_snowflake (excel_type : String) : String :=
  if excel_type = "" then "varchar(100)"
  else
    let u := pyStripS (pyUpperS excel_type)
    match sizedTypeMatch u with
    | some (base, size) =>
      if base == "VARCHAR" || base == "CHAR" then
        "varchar(" ++ size ++ ")"
      else if base == "NUMBER" || base == "DECIMAL" || base == "NUMERIC" then
        "number(" ++ size ++ ")"
      else keywordScanAux excel_type u type_mapping
    | none => keywordScanAux excel_type u type_mapping

/-- Keyword-table lookup written from the spec's words (§4.1), amended with
the proviso the code actually implements: first table entry matching by
bidirectional substring containment wins; a varchar-group match yields
`varchar(100)` only when the original input contains no `'('` character,
otherwise the bare table value `varchar`. -/
def specKeywordLookup (orig : String) : String :=
  let u := pyStripS (pyUpperS orig)
  match type_mapping.find? (fun kv => containsSubS u kv.1 || containsSubS kv.1 u) with
  | some kv =>
    if kv.2 == "varchar" && !containsSubS orig "(" then "varchar(100)" else kv.2
  | none => "varchar(100)"

theorem keywordScanAux_eq_find (orig u : String) :
    ∀ tbl : List (String × String), keywordScanAux orig u tbl =
      match tbl.find? (fun kv => containsSubS u kv.1 || containsSubS kv.1 u) with
      | some kv =>
        if kv.2 == "varchar" && !containsSubS orig "(" then "varchar(100)" else kv.2
      | none => "varchar(100)" := by
  intro tbl
  induction tbl with
  | nil => rfl
  | cons hd tl ih =>
    obtain ⟨k, v⟩ := hd
    by_cases h : (containsSubS u k || containsSubS k u) = true
    · simp [keywordScanAux, List.find?, h]
    · simp only [Bool.not_eq_true] at h
      simp [keywordScanAux, List.find?, h, ih]

/- ---------------------------------------------------------------------
   dbt-trs-generator: SQL generator column processing
   (src/dbt-trs-generator/dbt-trs-generator.py, generate_dbt_sql_with_mapping)
--------------------------------------------------------------------- -/

/-- One input record projected to the designated role columns.  `none`
stands for a NaN cell. -/
structure DesignRow where
  physical : Option String
  dtype : Option String

/-- Python `str(cell)` on a possibly-NaN pandas cell: `str(nan) = 'nan'`. -/
def strOfCell : Option String → String
  | none => "nan"
  | some v => v

/-- Mask alignment `selected_rows[:len(df)] + [False] * max(0, len(df) -
len(selected_rows))` followed by `[:len(df)]` (source lines 75-76). -/
def alignMask (mask : List Bool) (n : Nat) : List Bool :=
  (mask.take n ++ List.replicate (n - mask.length) false).take n

/-- Boolean-mask row filtering `df[selected_mask]` (source line 77). -/
def filterByMask (rows : List DesignRow) (mask : List Bool) : List DesignRow :=
  (rows.zip (alignMask mask rows.length)).filterMap fun rb =>
    if rb.2 then some rb.1 else none

/-- Embedding of `dropna(subset=[physical_col])` (source line 82). -/
def dropnaPhysical (rows : List DesignRow) : List DesignRow :=
  rows.filter fun r => r.physical.isSome

/-- The retained rows handed to both generation loops. -/
def selectedRows (rows : List DesignRow) (mask : List Bool) : List DesignRow :=
  dropnaPhysical (filterByMask rows mask)

/-- The test `any(t in snowflake_type.lower() for t in ['number', 'int',
'decimal', 'float', 'double', 'date', 'timestamp'])` (source line 102). -/
def isNumericLike (t : String) : Bool :=
  ["number", "int", "decimal", "float", "double", "date", "timestamp"].any
    fun k => containsSubS (pyLowerS t) k

/-- The extraction-stage loop (source lines 90-108): one line per retained
row with a non-blank, non-'nan' physical name; `col_index` starts at 1 and
is incremented only for emitted lines. -/
def extractionColumnLines : List DesignRow → Nat → List String
  | [], _ => []
  | r :: rest, i =>
    let colName := pyStripS (strOfCell r.physical)
    let dataType := match r.dtype with
      | some t => pyStripS t
      | none => "varchar(100)"
    if colName == "" || colName == "nan" then extractionColumnLines rest i
    else
      let sft := convert_excel_type_to_snowflake dataType
      (if isNumericLike sft then
        "            nullif(value:c" ++ toString i ++ ", '')::" ++ sft ++ " as " ++ colName
      else
        "            value:c" ++ toString i ++ "::" ++ sft ++ " as " ++ colName)
        :: extractionColumnLines rest (i + 1)

/-- The gender case expression f-string (source lines 125-133). -/
def genderCaseExpr (colName : String) : String :=
  "    case\n        when " ++ colName ++ " is null\n        then 0\n        when "
    ++ colName ++ " = '男'\n        then 1\n        when " ++ colName
    ++ " = '女'\n        then 2\n        else 9\n    end as " ++ colName

/-- The selection-stage loop (source lines 119-135). -/
def selectionColumnLines : List DesignRow → List String
  | [] => []
  | r :: rest =>
    let colName := pyStripS (strOfCell r.physical)
    if colName != "" && colName != "nan" then
      (if containsSubS (pyLowerS colName) "gender" || containsSubS colName "性別" then
        genderCaseExpr colName
      else "    " ++ colName) :: selectionColumnLines rest
    else selectionColumnLines rest

/- ---------------------------------------------------------------------
   Claims C3 and C8: type normalizer
--------------------------------------------------------------------- -/

/-- Claim C3, counterexample: the claim asserts that `normalize("TIME")`
returns `"time"`, but under the stated first-match rule `"TIME"` is a
substring of the earlier key `"DATETIME"`, so the code returns
`"timestamp"`. -/
theorem normalize_time_counterexample :
    convert_excel_type_to_snowflake "TIME" = "timestamp" ∧
      ("timestamp" : String) ≠ "time" := by
  constructor
  · rfl
  · decide

/-- Claim C3 (amended): for every declared type whose uppercased-trimmed form
does not match the sized LETTERS(DIGITS) pattern, the normalizer returns the
first keyword-table entry matching by bidirectional substring containment,
except that a varchar-group match yields "varchar(100)" only when the
original input contains no '(' (otherwise bare "varchar"); in particular
normalize("時刻") = "time", but normalize("TIME") = "timestamp" (TIME is
contained in the earlier key DATETIME) and normalize("VARCHAR(A)") =
"varchar". -/
theorem normalizer_keyword_fallback_amended :
    (∀ s : String, sizedTypeMatch (pyStripS (pyUpperS s)) = none →
      convert_excel_type_to_snowflake s = specKeywordLookup s) ∧
    convert_excel_type_to_snowflake "時刻" = "time" ∧
    convert_excel_type_to_snowflake "TIME" = "timestamp" ∧
    convert_excel_type_to_snowflake "VARCHAR(A)" = "varchar" := by
  refine ⟨?_, rfl, rfl, rfl⟩
  intro s h
  by_cases hs : s = ""
  · subst hs; rfl
  · unfold convert_excel_type_to_snowflake specKeywordLookup
    rw [if_neg hs]
    simp only [h]
    rw [keywordScanAux_eq_find]

theorem normalizer_keyword_fallback_amended_witness :
    sizedTypeMatch (pyStripS (pyUpperS "日付")) = none ∧
      convert_excel_type_to_snowflake "日付" = specKeywordLookup "日付" :=
  ⟨by decide, normalizer_keyword_fallback_amended.1 "日付" (by decide)⟩

/-- Claim C8: for every declared type whose uppercased-trimmed form matches
the LETTERS(DIGITS) pattern, VARCHAR/CHAR letters yield varchar(digits) and
NUMBER/DECIMAL/NUMERIC letters yield number(digits); in particular
VARCHAR(10) → varchar(10), CHAR(5) → varchar(5), NUMBER(3) → number(3). -/
theorem sized_type_normalization :
    (∀ s base size : String,
      sizedTypeMatch (pyStripS (pyUpperS s)) = some (base, size) →
      ((base = "VARCHAR" ∨ base = "CHAR") →
        convert_excel_type_to_snowflake s = "varchar(" ++ size ++ ")") ∧
      ((base = "NUMBER" ∨ base = "DECIMAL" ∨ base = "NUMERIC") →
        convert_excel_type_to_snowflake s = "number(" ++ size ++ ")")) ∧
    convert_excel_type_to_snowflake "VARCHAR(10)" = "varchar(10)" ∧
    convert_excel_type_to_snowflake "CHAR(5)" = "varchar(5)" ∧
    convert_excel_type_to_snowflake "NUMBER(3)" = "number(3)" := by
  refine ⟨?_, rfl, rfl, rfl⟩
  intro s base size h
  have hs : s ≠ "" := by
    rintro rfl
    simp [pyUpperS, pyStripS, sizedTypeMatch, isPySpace] at h
  constructor
  · rintro (rfl | rfl) <;>
      · unfold convert_excel_type_to_snowflake
        rw [if_neg hs]
        simp only [h]
        rfl
  · rintro (rfl | rfl | rfl) <;>
      · unfold convert_excel_type_to_snowflake
        rw [if_neg hs]
        simp only [h]
        rfl

theorem sized_type_normalization_witness :
    sizedTypeMatch (pyStripS (pyUpperS "decimal(8)")) = some ("DECIMAL", "8") ∧
      (("DECIMAL" : String) = "NUMBER" ∨ ("DECIMAL" : String) = "DECIMAL" ∨
        ("DECIMAL" : String) = "NUMERIC") ∧
      convert_excel_type_to_snowflake "decimal(8)" = "number(" ++ "8" ++ ")" :=
  ⟨by decide, Or.inr (Or.inl rfl),
    (sized_type_normalization.1 "decimal(8)" "DECIMAL" "8" (by decide)).2
      (Or.inr (Or.inl rfl))⟩

/- ---------------------------------------------------------------------
   Claim C7: generator slot assignment and gender case expression
--------------------------------------------------------------------- -/

/-- Claim C7: for rows [{id, INT}, {"", VARCHAR}, {gender, NUMBER}] with
inclusion mask [true, true, true], exactly 2 columns are generated (the
blank-name row is dropped and consumes no slot), slots are c1→id and
c2→gender, and gender appears in the selection stage as the 4-branch case
expression null→0, '男'→1, '女'→2, else→9. -/
theorem generator_blank_row_slots_gender_case :
    let rows : List DesignRow :=
      [⟨some "id", some "INT"⟩, ⟨some "", some "VARCHAR"⟩,
       ⟨some "gender", some "NUMBER"⟩]
    let sel := selectedRows rows [true, true, true]
    extractionColumnLines sel 1 =
      ["            nullif(value:c1, '')::number as id",
       "            nullif(value:c2, '')::number as gender"] ∧
    selectionColumnLines sel =
      ["    id",
       "    case\n        when gender is null\n        then 0\n        when gender = '男'\n        then 1\n        when gender = '女'\n        then 2\n        else 9\n    end as gender"] ∧
    (extractionColumnLines sel 1).length = 2 := by
  exact ⟨rfl, rfl, rfl⟩

/- ---------------------------------------------------------------------
   data_masking: cell-level masking primitives
   (src/streamlit_data_masking/data_masking.py)
--------------------------------------------------------------------- -/

/-- The partial-mask cell function of `mask_keep_head_tail` (source line 105),
identical to the lambda in `_apply_masking` (line 133):
`(x[:head] + "*" * max(0, len(x) - head - tail) + x[-tail:]) if x else ""`.
Nat subtraction is Python's `max(0, ...)`. -/
def mask_keep_head_tail (x : String) (headN tailN : Nat) : String :=
  if x = "" then ""
  else
    pyHeadSlice x headN ++ replChar '*' (x.data.length - headN - tailN)
      ++ pyTailSlice x tailN

/-- pandas `astype(str)` on one cell: a NaN cell is stringified to the
literal string "nan" (pandas applies `str` to the float NaN); a text cell
is unchanged. -/
def astypeStr : Option String → String
  | none => "nan"
  | some v => v

/-- The `.fillna("")` that follows `astype(str)` (source lines 88, 104, 129)
acts on the result of `astype(str)`, which no longer holds any NaN, so it is
the identity on every cell. -/
def fillnaEmptyAfterAstype (s : String) : String := s

/-- One cell through `chunk[c].astype(str).fillna("")`. -/
def cellToText (c : Option String) : String := fillnaEmptyAfterAstype (astypeStr c)

/-- The six masking methods of the `方式` selector. -/
inductive Method where
  | full
  | keepHeadTail
  | sha256
  | tokenize
  | regexMask
  | preset
deriving DecidableEq

/-- The parameters of one `_apply_masking` invocation.  The regex engine
(`re`), the preset lambdas built on it, and `hashlib.sha256` are external
libraries, so their actions enter the embedding as function parameters:
`regexFn` is the compiled pattern's substitution action, `presetFn` the
selected preset's lambda, and `hashFn` the hex digest of the already-salted
input.  `regexOk` records whether `regex_pat` is nonempty and compiles;
when it is false the source reports an error and leaves the column
unchanged. -/
structure Policy where
  method : Method
  headN : Nat
  tailN : Nat
  salt : String
  regexOk : Bool
  regexFn : String → String
  presetFn : String → String
  hashFn : String → String

/-- The per-cell action of each stateless branch of `_apply_masking`
(source lines 130-135 and 150-161); every branch is guarded by Python's
`... if x else ""`.  The tokenize branch is column-stateful and lives in
`applyColumn`. -/
def maskCell (p : Policy) (x : String) : String :=
  match p.method with
  | .full => if x = "" then "" else "****"
  | .keepHeadTail => mask_keep_head_tail x p.headN p.tailN
  | .sha256 => if x = "" then "" else p.hashFn (p.salt ++ x)
  | .tokenize => x
  | .regexMask => if x = "" then "" else p.regexFn x
  | .preset => if x = "" then "" else p.presetFn x

/-- A policy with the given method and inert parameters, used for concrete
evaluations. -/
def mkPolicy (m : Method) : Policy := ⟨m, 0, 0, "", false, id, id, id⟩

/-- Claim C1 (code-bug evaluation): with `tail = 0` the Python slice
`x[-0:]` degenerates to the whole string, so the method appends the entire
raw value after the asterisks instead of the empty tail that the claim (and
the method's own description, mask everything but the first N / last M
characters) prescribes: `mask_keep_head_tail "abc" 1 0 = "a**abc"`, not
`"a**"`.  The claim's own example with `tail = 2` does hold. -/
theorem mask_keep_head_tail_tail_zero_eval :
    mask_keep_head_tail "abc" 1 0 = "a**abc" ∧
    mask_keep_head_tail "abc" 1 0 ≠ "a**" ∧
    mask_keep_head_tail "1234567890" 2 2 = "12******90" := by
  refine ⟨rfl, by decide, rfl⟩

/- ---------------------------------------------------------------------
   data_masking: token map
   (tokenize_series, the tokenize branch of _apply_masking, and the
   token-map import at source lines 312-318)
--------------------------------------------------------------------- -/

/-- The session token map `st.session_state.token_map`: a Python dict from
raw value to token, embedded as an insertion-ordered association list
(Python dicts preserve insertion order and key uniqueness). -/
abbrev TokenMap := List (String × String)

/-- Dict lookup `tm[v]` / membership `v in tm`. -/
def lookupTM : TokenMap → String → Option String
  | [], _ => none
  | (k, t) :: rest, v => if k == v then some t else lookupTM rest v

/-- Decimal digit character (`'0'` has code 48). -/
def digitChar (d : Nat) : Char := Char.ofNat (48 + d)

/-- Decimal digits of a natural number, most significant first, fuel-driven
so that it reduces by evaluation. -/
def natDigitsAux : Nat → Nat → List Char
  | 0, _ => []
  | fuel + 1, n =>
    if n < 10 then [digitChar n]
    else natDigitsAux fuel (n / 10) ++ [digitChar (n % 10)]

def natDigits (n : Nat) : List Char := natDigitsAux (n + 1) n

/-- Python `f"{n:07d}"`: the decimal representation zero-padded to width 7
(wider numbers are printed in full). -/
def pad7 (n : Nat) : String :=
  ⟨List.replicate (7 - (natDigits n).length) '0' ++ natDigits n⟩

/-- Token format `f"TKN_{counter:07d}"` (source lines 93 and 146). -/
def mkToken (n : Nat) : String := "TKN_" ++ pad7 n

/-- The tokenisation loop shared by `tokenize_series` (source lines 88-95)
and the tokenize branch of `_apply_masking` (lines 141-148): empty values
pass through, unseen values are appended to the map under the next counter
value, and each output is the mapped token. -/
def tokenizeGo : TokenMap → Nat → List String → List String × TokenMap
  | tm, _, [] => ([], tm)
  | tm, counter, v :: vs =>
    if v = "" then
      let r := tokenizeGo tm counter vs
      ("" :: r.1, r.2)
    else
      match lookupTM tm v with
      | some t =>
        let r := tokenizeGo tm counter vs
        (t :: r.1, r.2)
      | none =>
        let t := mkToken counter
        let r := tokenizeGo (tm ++ [(v, t)]) (counter + 1) vs
        (t :: r.1, r.2)

/-- One invocation of the tokenize branch: the counter is recomputed as
`len(tm) + 1` at entry (source lines 87 and 140). -/
def tokenizeList (tm : TokenMap) (texts : List String) : List String × TokenMap :=
  tokenizeGo tm (tm.length + 1) texts

/-- One key of a Python `dict.update`: overwrite in place when the key
exists, else append. -/
def setKeyTM : TokenMap → String → String → TokenMap
  | [], k, v => [(k, v)]
  | (k', v') :: rest, k, v =>
    if k' == k then (k', v) :: rest else (k', v') :: setKeyTM rest k v

/-- Embedding of `st.session_state.token_map.update(json.load(f))` (source
line 315). -/
def updateTM : TokenMap → TokenMap → TokenMap
  | tm, [] => tm
  | tm, (k, v) :: rest => updateTM (setKeyTM tm k v) rest

/- ---------------------------------------------------------------------
   data_masking: table-level dispatcher
   (_apply_masking, source lines 123-162)
--------------------------------------------------------------------- -/

/-- Index of column `c` in the header (`c in chunk.columns` plus positional
access), `none` when the column is absent. -/
def findIdx : List String → String → Option Nat
  | [], _ => none
  | h :: rest, c => if h == c then some 0 else (findIdx rest c).map (· + 1)

/-- Cell of a row at a column index. -/
def cellAt : List (Option String) → Nat → Option String
  | [], _ => none
  | c :: _, 0 => c
  | _ :: rest, n + 1 => cellAt rest n

/-- Overwrite the cell at a column index with a masked text value. -/
def setAt : List (Option String) → Nat → String → List (Option String)
  | [], _, _ => []
  | _ :: rest, 0, v => some v :: rest
  | c :: rest, n + 1, v => c :: setAt rest n v

/-- Write-back `chunk[c] = pd.Series(out, index=s.index)`: the new column,
row by row (the new column always has one value per row). -/
def writeColumn : List (List (Option String)) → Nat → List String → List (List (Option String))
  | [], _, _ => []
  | _ :: _, _, [] => []
  | row :: rows, i, v :: vs => setAt row i v :: writeColumn rows i vs

/-- One column pass of `_apply_masking` on the text series: the dispatch on
`method` (source lines 130-161). -/
def applyColumn (p : Policy) (tm : TokenMap) (texts : List String) :
    List String × TokenMap :=
  match p.method with
  | .tokenize => tokenizeList tm texts
  | _ => (texts.map (maskCell p), tm)

/-- One iteration of the `for c in cols` loop of `_apply_masking` (source
lines 126-161): absent columns are skipped; with the regex method and a
missing or non-compiling pattern the source only reports an error and never
assigns `chunk[c]`, so the column keeps its original cells; otherwise the
column is read as text and overwritten with the dispatched masking
result. -/
def applyMaskingCol (p : Policy) (header : List String) (tm : TokenMap)
    (rows : List (List (Option String))) (c : String) :
    List (List (Option String)) × TokenMap :=
  match findIdx header c with
  | none => (rows, tm)
  | some i =>
    if p.method = Method.regexMask ∧ p.regexOk = false then (rows, tm)
    else
      let texts := rows.map fun row => cellToText (cellAt row i)
      let r := applyColumn p tm texts
      (writeColumn rows i r.1, r.2)

/-- Embedding of `_apply_masking` (source lines 123-162): the loop over the
target columns.  The header itself is never modified. -/
def applyMasking (p : Policy) (cols : List String) (header : List String)
    (tm : TokenMap) (rows : List (List (Option String))) :
    List (List (Option String)) × TokenMap :=
  match cols with
  | [] => (rows, tm)
  | c :: rest =>
    let r := applyMaskingCol p header tm rows c
    applyMasking p rest header r.2 r.1

/-- Claim C2 (code-bug evaluation): in `_apply_masking`, `astype(str)` runs
before `fillna("")`, so a null cell becomes the string "nan" and is masked
like any other non-empty text: on a one-column table whose single cell is
null, the full-mask output is "****", not the empty string the claim
prescribes (the dead `fillna("")` call records the intended null → ""
treatment).  An empty-string cell, by contrast, does produce "". -/
theorem apply_masking_null_cell_eval :
    cellToText none = "nan" ∧
    (applyMasking (mkPolicy .full) ["A"] ["A"] [] [[none]]).1 = [[some "****"]] ∧
    (applyMasking (mkPolicy .full) ["A"] ["A"] [] [[some ""]]).1 = [[some ""]] ∧
    (some "****" : Option String) ≠ some "" := by
  refine ⟨rfl, rfl, rfl, by decide⟩

/- ---------------------------------------------------------------------
   data_masking: streaming-output filename
   (stream_mask_save, source lines 167-181, and _sep_from_path, lines 118-120)
--------------------------------------------------------------------- -/

/-- POSIX `os.path.basename` (separators as in the examples the UI shows). -/
def basenameS (p : String) : String :=
  ⟨(p.data.reverse.takeWhile (fun c => c != '/')).reverse⟩

/-- Embedding of `_sep_from_path` (source lines 118-120). -/
def sepFromPath (path : String) : String :=
  if endsWithS (pyLowerS path) ".tsv" || endsWithS (pyLowerS path) ".tsv.gz"
  then "\t" else ","

/-- The suffix list of `stream_mask_save` (source line 172). -/
def recognizedSuffixes : List String :=
  [".csv.gz", ".tsv.gz", ".xlsx", ".xls", ".csv", ".tsv"]

/-- The suffix-stripping loop (source lines 171-175): the first recognized
suffix, matched on the lowercased basename, is sliced off the original
basename, then the loop breaks. -/
def stripSuffixAux (base : String) : List String → String
  | [] => base
  | suf :: rest =>
    if endsWithS (pyLowerS base) suf then
      ⟨base.data.take (base.data.length - suf.data.length)⟩
    else stripSuffixAux base rest

def stripRecognizedSuffix (base : String) : String :=
  stripSuffixAux base recognizedSuffixes

/-- The output-filename computation of `stream_mask_save` (source lines
167-179): note the source spells the appended suffix `_maked`. -/
def outName (path : String) (gzipSave : Bool) : String :=
  let sep := sepFromPath path
  let base := stripRecognizedSuffix (basenameS path)
  let ext := if sep = "\t" then ".tsv" else ".csv"
  let name := base ++ "_maked" ++ ext
  if gzipSave && (ext == ".csv") then name ++ ".gz" else name

/-- Output filename written from the spec's words (§4.4), amended to the
`_maked` spelling the code uses: input basename with the first recognized
suffix stripped, then `_maked`, then the inferred extension (`.tsv` for
tab-delimited input, else `.csv`), with `.gz` appended exactly when gzip
output is requested and the output is comma-delimited. -/
def specOutName (path : String) (gzipSave : Bool) : String :=
  let ext := if sepFromPath path = "\t" then ".tsv" else ".csv"
  stripRecognizedSuffix (basenameS path) ++ "_maked" ++ ext ++
    (if gzipSave && (sepFromPath path == ",") then ".gz" else "")

/-- Paths the streaming CSV/TSV branch handles. -/
def isCsvTsvPath (path : String) : Bool :=
  endsWithS (pyLowerS path) ".csv" || endsWithS (pyLowerS path) ".tsv" ||
    endsWithS (pyLowerS path) ".csv.gz" || endsWithS (pyLowerS path) ".tsv.gz"

theorem str_append_empty (s : String) : s ++ "" = s := by
  cases s with
  | mk data => show String.mk (data ++ []) = String.mk data
               rw [List.append_nil]

/-- Claim C4, counterexample: the appended suffix is `_maked`, not the
`_masked` the claim states. -/
theorem out_name_maked_counterexample :
    outName "data.csv" false = "data_maked.csv" ∧
      ("data_maked.csv" : String) ≠ "data_masked.csv" := by
  refine ⟨rfl, by decide⟩

/-- Claim C4 (amended): for every CSV/TSV input path, the output filename is
the input basename with the first recognized suffix stripped, then `_maked`
(sic) appended, then the inferred extension (`.tsv` for tab-delimited, else
`.csv`), with `.gz` appended exactly when gzip output is requested and the
output is comma-delimited. -/
theorem out_name_formula_amended (path : String) (gz : Bool)
    (_h : isCsvTsvPath path = true) :
    outName path gz = specOutName path gz := by
  unfold outName specOutName sepFromPath
  by_cases ht : (endsWithS (pyLowerS path) ".tsv"
      || endsWithS (pyLowerS path) ".tsv.gz") = true
  · simp only [ht, if_pos rfl, reduceIte]
    cases gz <;> simp [str_append_empty]
  · simp only [Bool.not_eq_true] at ht
    simp only [ht, Bool.false_eq_true, reduceIte]
    cases gz <;> simp [str_append_empty]

theorem out_name_formula_amended_witness :
    isCsvTsvPath "dir/sales.tsv.gz" = true ∧
      outName "dir/sales.tsv.gz" true = specOutName "dir/sales.tsv.gz" true :=
  ⟨by decide, out_name_formula_amended "dir/sales.tsv.gz" true (by decide)⟩

/- ---------------------------------------------------------------------
   Token formatting: the zero-padded counter is injective
--------------------------------------------------------------------- -/

/-- Numeric value of a decimal digit character. -/
def charVal (c : Char) : Nat := c.toNat - 48

/-- Value of a digit list, most significant first. -/
def valDigits (l : List Char) : Nat :=
  l.foldl (fun a c => a * 10 + charVal c) 0

theorem charVal_digitChar : ∀ d : Nat, d < 10 → charVal (digitChar d) = d := by
  decide

theorem foldl_replicate_zero :
    ∀ k : Nat, List.foldl (fun a c => a * 10 + charVal c) 0 (List.replicate k '0') = 0 := by
  intro k
  induction k with
  | zero => rfl
  | succ k ih => simpa [List.replicate] using ih

theorem valDigits_natDigitsAux :
    ∀ fuel n : Nat, n < fuel → valDigits (natDigitsAux fuel n) = n := by
  intro fuel
  induction fuel with
  | zero => intro n h; omega
  | succ fuel ih =>
    intro n h
    by_cases h10 : n < 10
    · simp [natDigitsAux, h10, valDigits, List.foldl, charVal_digitChar n h10]
    · have hdiv : n / 10 < fuel := by
        have h1 : n / 10 < n := Nat.div_lt_self (by omega) (by omega)
        omega
      have hmod : n % 10 < 10 := Nat.mod_lt _ (by omega)
      simp only [natDigitsAux, if_neg h10]
      rw [valDigits, List.foldl_append, ← valDigits, ih (n / 10) hdiv]
      simp [List.foldl, charVal_digitChar _ hmod]
      omega

theorem valDigits_pad7 (n : Nat) : valDigits (pad7 n).data = n := by
  show valDigits (List.replicate (7 - (natDigits n).length) '0' ++ natDigits n) = n
  rw [valDigits, List.foldl_append, foldl_replicate_zero, ← valDigits]
  exact valDigits_natDigitsAux (n + 1) n (Nat.lt_succ_self n)

theorem str_data_append (s t : String) : (s ++ t).data = s.data ++ t.data := by
  cases s; cases t; rfl

theorem mkToken_inj {a b : Nat} (h : mkToken a = mkToken b) : a = b := by
  have hd : "TKN_".data ++ (pad7 a).data = "TKN_".data ++ (pad7 b).data := by
    have h2 : ("TKN_" ++ pad7 a).data = ("TKN_" ++ pad7 b).data :=
      congrArg String.data h
    rwa [str_data_append, str_data_append] at h2
  have hp : (pad7 a).data = (pad7 b).data := by
    simpa using congrArg (List.drop 4) hd
  have hv := congrArg valDigits hp
  rwa [valDigits_pad7, valDigits_pad7] at hv

/- ---------------------------------------------------------------------
   Claim C5: token-map invariants
--------------------------------------------------------------------- -/

/-- Shape of a token map grown by the tokenizer alone: the entry at
0-based position `j` carries the token `mkToken (i + j)`. -/
def wfTokensFrom : TokenMap → Nat → Bool
  | [], _ => true
  | (_, t) :: rest, i => (t == mkToken i) && wfTokensFrom rest (i + 1)

/-- Well-formedness of a session token map populated exclusively by the
tokenizer starting from empty: tokens are `TKN_0000001, TKN_0000002, ...`
in insertion (= first-seen) order. -/
def wfTM (tm : TokenMap) : Bool := wfTokensFrom tm 1

theorem lookupTM_append_left {tm : TokenMap} {v t : String}
    (h : lookupTM tm v = some t) (ext : TokenMap) :
    lookupTM (tm ++ ext) v = some t := by
  induction tm with
  | nil => simp [lookupTM] at h
  | cons hd rest ih =>
    obtain ⟨k, tk⟩ := hd
    by_cases hk : (k == v) = true
    · simp [lookupTM, hk] at h ⊢
      exact h
    · simp only [Bool.not_eq_true] at hk
      simp only [lookupTM, hk, Bool.false_eq_true, reduceIte, List.cons_append] at h ⊢
      exact ih h

theorem lookupTM_append_new {tm : TokenMap} {v : String}
    (h : lookupTM tm v = none) (t : String) :
    lookupTM (tm ++ [(v, t)]) v = some t := by
  induction tm with
  | nil => simp [lookupTM]
  | cons hd rest ih =>
    obtain ⟨k, tk⟩ := hd
    by_cases hk : (k == v) = true
    · simp [lookupTM, hk] at h
    · simp only [Bool.not_eq_true] at hk
      simp only [lookupTM, hk, Bool.false_eq_true, reduceIte, List.cons_append] at h ⊢
      exact ih h

theorem tokenizeGo_extends :
    ∀ (vs : List String) (tm : TokenMap) (c : Nat),
      ∃ ext, (tokenizeGo tm c vs).2 = tm ++ ext := by
  intro vs
  induction vs with
  | nil => intro tm c; exact ⟨[], by simp [tokenizeGo]⟩
  | cons v vs ih =>
    intro tm c
    by_cases hv : v = ""
    · subst hv
      simpa [tokenizeGo] using ih tm c
    · cases hl : lookupTM tm v with
      | some t => simpa [tokenizeGo, hv, hl] using ih tm c
      | none =>
        obtain ⟨ext, hext⟩ := ih (tm ++ [(v, mkToken c)]) (c + 1)
        refine ⟨(v, mkToken c) :: ext, ?_⟩
        simp [tokenizeGo, hv, hl, hext]

theorem lookupTM_preserved {tm : TokenMap} {v t : String}
    (h : lookupTM tm v = some t) (c : Nat) (vs : List String) :
    lookupTM (tokenizeGo tm c vs).2 v = some t := by
  obtain ⟨ext, hext⟩ := tokenizeGo_extends vs tm c
  rw [hext]
  exact lookupTM_append_left h ext

theorem wfTokensFrom_append :
    ∀ (tm : TokenMap) (i : Nat) (v : String), wfTokensFrom tm i = true →
      wfTokensFrom (tm ++ [(v, mkToken (i + tm.length))]) i = true := by
  intro tm
  induction tm with
  | nil => intro i v _; simp [wfTokensFrom]
  | cons hd rest ih =>
    intro i v h
    obtain ⟨k, tk⟩ := hd
    simp only [wfTokensFrom, Bool.and_eq_true] at h
    obtain ⟨h1, h2⟩ := h
    simp only [List.cons_append, wfTokensFrom, Bool.and_eq_true, List.length_cons]
    refine ⟨h1, ?_⟩
    have he : i + (rest.length + 1) = (i + 1) + rest.length := by omega
    rw [he]
    exact ih (i + 1) v h2

theorem tokenizeGo_preserves_wf :
    ∀ (vs : List String) (tm : TokenMap) (c : Nat), c = tm.length + 1 →
      wfTokensFrom tm 1 = true → wfTokensFrom (tokenizeGo tm c vs).2 1 = true := by
  intro vs
  induction vs with
  | nil => intro tm c _ h; simpa [tokenizeGo] using h
  | cons v vs ih =>
    intro tm c hc h
    by_cases hv : v = ""
    · subst hv
      simpa [tokenizeGo] using ih tm c hc h
    · cases hl : lookupTM tm v with
      | some t => simpa [tokenizeGo, hv, hl] using ih tm c hc h
      | none =>
        have hwf2 : wfTokensFrom (tm ++ [(v, mkToken c)]) 1 = true := by
          have h3 := wfTokensFrom_append tm 1 v h
          rwa [show 1 + tm.length = c by omega] at h3
        have hlen : c + 1 = (tm ++ [(v, mkToken c)]).length + 1 := by
          simp [List.length_append]
          omega
        simpa [tokenizeGo, hv, hl] using
          ih (tm ++ [(v, mkToken c)]) (c + 1) hlen hwf2

theorem lookupTM_wf_token :
    ∀ (tm : TokenMap) (i : Nat) (v t : String), wfTokensFrom tm i = true →
      lookupTM tm v = some t → ∃ m, i ≤ m ∧ t = mkToken m := by
  intro tm
  induction tm with
  | nil => intro i v t _ h; simp [lookupTM] at h
  | cons hd rest ih =>
    intro i v t hwf hl
    obtain ⟨k, tk⟩ := hd
    simp only [wfTokensFrom, Bool.and_eq_true, beq_iff_eq] at hwf
    obtain ⟨h1, h2⟩ := hwf
    by_cases hk : (k == v) = true
    · simp only [lookupTM, hk, reduceIte, Option.some.injEq] at hl
      exact ⟨i, Nat.le_refl i, by rw [← hl, h1]⟩
    · simp only [Bool.not_eq_true] at hk
      simp only [lookupTM, hk, Bool.false_eq_true, reduceIte] at hl
      obtain ⟨m, hm1, hm2⟩ := ih (i + 1) v t h2 hl
      exact ⟨m, by omega, hm2⟩

theorem lookupTM_wf_distinct :
    ∀ (tm : TokenMap) (i : Nat) (v w tv tw : String), wfTokensFrom tm i = true →
      v ≠ w → lookupTM tm v = some tv → lookupTM tm w = some tw → tv ≠ tw := by
  intro tm
  induction tm with
  | nil => intro i v w tv tw _ _ hv; simp [lookupTM] at hv
  | cons hd rest ih =>
    intro i v w tv tw hwf hvw hv hw
    obtain ⟨k, tk⟩ := hd
    simp only [wfTokensFrom, Bool.and_eq_true, beq_iff_eq] at hwf
    obtain ⟨h1, h2⟩ := hwf
    by_cases hkv : (k == v) = true
    · have hkv' : k = v := by simpa using hkv
      simp only [lookupTM, hkv, reduceIte, Option.some.injEq] at hv
      have hkw : (k == w) = false := by
        simp only [beq_eq_false_iff_ne, ne_eq]
        rw [hkv']
        exact hvw
      simp only [lookupTM, hkw, Bool.false_eq_true, reduceIte] at hw
      obtain ⟨m, hm1, hm2⟩ := lookupTM_wf_token rest (i + 1) w tw h2 hw
      rw [← hv, h1, hm2]
      intro hcon
      have := mkToken_inj hcon
      omega
    · by_cases hkw : (k == w) = true
      · have hkw' : k = w := by simpa using hkw
        simp only [lookupTM, hkw, reduceIte, Option.some.injEq] at hw
        simp only [Bool.not_eq_true] at hkv
        simp only [lookupTM, hkv, Bool.false_eq_true, reduceIte] at hv
        obtain ⟨m, hm1, hm2⟩ := lookupTM_wf_token rest (i + 1) v tv h2 hv
        rw [← hw, h1, hm2]
        intro hcon
        have := mkToken_inj hcon
        omega
      · simp only [Bool.not_eq_true] at hkv hkw
        simp only [lookupTM, hkv, hkw, Bool.false_eq_true, reduceIte] at hv hw
        exact ih (i + 1) v w tv tw h2 hvw hv hw

theorem lookupTM_setKey_self :
    ∀ (tm : TokenMap) (k v : String), lookupTM (setKeyTM tm k v) k = some v := by
  intro tm k v
  induction tm with
  | nil => simp [setKeyTM, lookupTM]
  | cons hd rest ih =>
    obtain ⟨k', v'⟩ := hd
    by_cases hk : (k' == k) = true
    · simp [setKeyTM, hk, lookupTM]
    · simp only [Bool.not_eq_true] at hk
      simp [setKeyTM, hk, lookupTM, ih]

/-- Claim C5, counterexample: after importing the external map
`{"x": "TKN_0000002"}` into an empty session, tokenizing the fresh value
`"a"` assigns the token `TKN_{len(tm)+1:07d} = TKN_0000002`, which already
belongs to the imported key `"x"`: two distinct raw values now share one
token, so injectivity does not survive arbitrary imports. -/
theorem token_map_import_collision_counterexample :
    (tokenizeList (updateTM [] [("x", "TKN_0000002")]) ["a"]).1 = ["TKN_0000002"] ∧
    lookupTM (tokenizeList (updateTM [] [("x", "TKN_0000002")]) ["a"]).2 "x" =
      some "TKN_0000002" ∧
    lookupTM (tokenizeList (updateTM [] [("x", "TKN_0000002")]) ["a"]).2 "a" =
      some "TKN_0000002" ∧
    ("x" : String) ≠ "a" := by
  refine ⟨by decide, by decide, by decide, by decide⟩

/-- Claim C5 (amended): tokenizing the same non-empty raw value twice yields
the identical token, and existing entries are never renumbered by later
tokenizations; when the map has been populated exclusively by the tokenizer
starting from empty, tokens are `TKN_` + zero-padded 7-digit sequence
numbers assigned 1, 2, ... in first-seen order (an invariant every
tokenization pass preserves), and distinct raw values hold distinct tokens;
an imported entry takes precedence over an existing entry with the same key,
but after importing an arbitrary external token map injectivity is no longer
guaranteed (see the counterexample). -/
theorem token_map_invariants_amended :
    (∀ (tm : TokenMap) (v : String), v ≠ "" →
      (tokenizeList (tokenizeList tm [v]).2 [v]).1 = (tokenizeList tm [v]).1) ∧
    (∀ (tm : TokenMap) (vs : List String) (v t : String), lookupTM tm v = some t →
      lookupTM (tokenizeList tm vs).2 v = some t) ∧
    (∀ (tm : TokenMap) (vs : List String), wfTM tm = true →
      wfTM (tokenizeList tm vs).2 = true) ∧
    (∀ (tm : TokenMap) (v w tv tw : String), wfTM tm = true → v ≠ w →
      lookupTM tm v = some tv → lookupTM tm w = some tw → tv ≠ tw) ∧
    (∀ (tm : TokenMap) (k v : String), lookupTM (updateTM tm [(k, v)]) k = some v) := by
  refine ⟨?_, ?_, ?_, ?_, ?_⟩
  · intro tm v hv
    cases hl : lookupTM tm v with
    | some t => simp [tokenizeList, tokenizeGo, hv, hl]
    | none =>
      have h2 : lookupTM (tm ++ [(v, mkToken (tm.length + 1))]) v
          = some (mkToken (tm.length + 1)) := lookupTM_append_new hl _
      simp [tokenizeList, tokenizeGo, hv, hl, h2]
  · intro tm vs v t h
    exact lookupTM_preserved h (tm.length + 1) vs
  · intro tm vs h
    exact tokenizeGo_preserves_wf vs tm (tm.length + 1) rfl h
  · intro tm v w tv tw hwf hvw hv hw
    exact lookupTM_wf_distinct tm 1 v w tv tw hwf hvw hv hw
  · intro tm k v
    show lookupTM (updateTM tm [(k, v)]) k = some v
    have : updateTM tm [(k, v)] = setKeyTM tm k v := rfl
    rw [this]
    exact lookupTM_setKey_self tm k v

theorem token_map_invariants_amended_witness :
    (("a" : String) ≠ "" ∧
      (tokenizeList (tokenizeList [] ["a"]).2 ["a"]).1 = (tokenizeList [] ["a"]).1) ∧
    (wfTM [("a", "TKN_0000001")] = true ∧
      wfTM (tokenizeList [("a", "TKN_0000001")] ["b", "a"]).2 = true) ∧
    (wfTM [("a", "TKN_0000001"), ("b", "TKN_0000002")] = true ∧
      ("a" : String) ≠ "b" ∧
      lookupTM [("a", "TKN_0000001"), ("b", "TKN_0000002")] "a" = some "TKN_0000001" ∧
      lookupTM [("a", "TKN_0000001"), ("b", "TKN_0000002")] "b" = some "TKN_0000002" ∧
      ("TKN_0000001" : String) ≠ "TKN_0000002") :=
  ⟨⟨by decide, token_map_invariants_amended.1 [] "a" (by decide)⟩,
   ⟨by decide,
     token_map_invariants_amended.2.2.1 [("a", "TKN_0000001")] ["b", "a"] (by decide)⟩,
   ⟨by decide, by decide, by decide, by decide,
     token_map_invariants_amended.2.2.2.1 [("a", "TKN_0000001"), ("b", "TKN_0000002")]
       "a" "b" "TKN_0000001" "TKN_0000002" (by decide) (by decide) (by decide) (by decide)⟩⟩

/- ---------------------------------------------------------------------
   Claim C6: chunked streaming versus one pass
--------------------------------------------------------------------- -/

/-- Positional access used to state row/cell-level properties. -/
def listNth {α : Type} : List α → Nat → Option α
  | [], _ => none
  | x :: _, 0 => some x
  | _ :: xs, n + 1 => listNth xs n

theorem tokenizeGo_length :
    ∀ (vs : List String) (tm : TokenMap) (c : Nat),
      (tokenizeGo tm c vs).1.length = vs.length := by
  intro vs
  induction vs with
  | nil => intro tm c; rfl
  | cons v vs ih =>
    intro tm c
    by_cases hv : v = ""
    · subst hv; simp [tokenizeGo, ih]
    · cases hl : lookupTM tm v with
      | some t => simp [tokenizeGo, hv, hl, ih]
      | none => simp [tokenizeGo, hv, hl, ih]

theorem tokenizeGo_cons_empty (tm : TokenMap) (c : Nat) (vs : List String) :
    tokenizeGo tm c ("" :: vs) =
      ("" :: (tokenizeGo tm c vs).1, (tokenizeGo tm c vs).2) := by
  simp [tokenizeGo]

theorem tokenizeGo_cons_found (tm : TokenMap) (c : Nat) (v : String)
    (vs : List String) (t : String) (hv : v ≠ "") (hl : lookupTM tm v = some t) :
    tokenizeGo tm c (v :: vs) =
      (t :: (tokenizeGo tm c vs).1, (tokenizeGo tm c vs).2) := by
  simp [tokenizeGo, hv, hl]

theorem tokenizeGo_cons_new (tm : TokenMap) (c : Nat) (v : String)
    (vs : List String) (hv : v ≠ "") (hl : lookupTM tm v = none) :
    tokenizeGo tm c (v :: vs) =
      (mkToken c :: (tokenizeGo (tm ++ [(v, mkToken c)]) (c + 1) vs).1,
        (tokenizeGo (tm ++ [(v, mkToken c)]) (c + 1) vs).2) := by
  simp [tokenizeGo, hv, hl]

theorem tokenizeGo_append :
    ∀ (vs1 vs2 : List String) (tm : TokenMap) (c : Nat), c = tm.length + 1 →
      tokenizeGo tm c (vs1 ++ vs2) =
        ((tokenizeGo tm c vs1).1 ++
            (tokenizeGo (tokenizeGo tm c vs1).2
              ((tokenizeGo tm c vs1).2.length + 1) vs2).1,
          (tokenizeGo (tokenizeGo tm c vs1).2
            ((tokenizeGo tm c vs1).2.length + 1) vs2).2) := by
  intro vs1
  induction vs1 with
  | nil =>
    intro vs2 tm c hc
    subst hc
    simp [tokenizeGo]
  | cons v vs1 ih =>
    intro vs2 tm c hc
    by_cases hv : v = ""
    · subst hv
      rw [List.cons_append, tokenizeGo_cons_empty, tokenizeGo_cons_empty,
        ih vs2 tm c hc]
      rfl
    · cases hl : lookupTM tm v with
      | some t =>
        rw [List.cons_append, tokenizeGo_cons_found tm c v (vs1 ++ vs2) t hv hl,
          tokenizeGo_cons_found tm c v vs1 t hv hl, ih vs2 tm c hc]
        rfl
      | none =>
        have hc2 : c + 1 = (tm ++ [(v, mkToken c)]).length + 1 := by
          simp [List.length_append]
          omega
        rw [List.cons_append, tokenizeGo_cons_new tm c v (vs1 ++ vs2) hv hl,
          tokenizeGo_cons_new tm c v vs1 hv hl,
          ih vs2 (tm ++ [(v, mkToken c)]) (c + 1) hc2]
        rfl

theorem tokenizeList_append (tm : TokenMap) (vs1 vs2 : List String) :
    tokenizeList tm (vs1 ++ vs2) =
      ((tokenizeList tm vs1).1 ++ (tokenizeList (tokenizeList tm vs1).2 vs2).1,
        (tokenizeList (tokenizeList tm vs1).2 vs2).2) :=
  tokenizeGo_append vs1 vs2 tm (tm.length + 1) rfl

theorem applyColumn_length (p : Policy) (tm : TokenMap) (texts : List String) :
    (applyColumn p tm texts).1.length = texts.length := by
  cases hm : p.method <;>
    simp [applyColumn, hm, tokenizeList, tokenizeGo_length, List.length_map]

theorem applyColumn_tm_stateless (p : Policy) (tm : TokenMap) (texts : List String)
    (h : p.method ≠ Method.tokenize) : (applyColumn p tm texts).2 = tm := by
  cases hm : p.method with
  | tokenize => exact absurd hm h
  | full => simp [applyColumn, hm]
  | keepHeadTail => simp [applyColumn, hm]
  | sha256 => simp [applyColumn, hm]
  | regexMask => simp [applyColumn, hm]
  | preset => simp [applyColumn, hm]

theorem applyColumn_append (p : Policy) (tm : TokenMap) (t1 t2 : List String) :
    applyColumn p tm (t1 ++ t2) =
      ((applyColumn p tm t1).1 ++ (applyColumn p (applyColumn p tm t1).2 t2).1,
        (applyColumn p (applyColumn p tm t1).2 t2).2) := by
  cases hm : p.method with
  | tokenize =>
    simp only [applyColumn, hm]
    exact tokenizeList_append tm t1 t2
  | full => simp [applyColumn, hm, List.map_append]
  | keepHeadTail => simp [applyColumn, hm, List.map_append]
  | sha256 => simp [applyColumn, hm, List.map_append]
  | regexMask => simp [applyColumn, hm, List.map_append]
  | preset => simp [applyColumn, hm, List.map_append]

theorem writeColumn_append :
    ∀ (r1 : List (List (Option String))) (o1 : List String)
      (r2 : List (List (Option String))) (o2 : List String) (i : Nat),
      o1.length = r1.length →
      writeColumn (r1 ++ r2) i (o1 ++ o2) =
        writeColumn r1 i o1 ++ writeColumn r2 i o2 := by
  intro r1
  induction r1 with
  | nil =>
    intro o1 r2 o2 i h
    have ho : o1 = [] := List.length_eq_zero.mp h
    subst ho
    rfl
  | cons r rs ih =>
    intro o1 r2 o2 i h
    cases o1 with
    | nil => simp at h
    | cons v vs =>
      simp only [List.cons_append, writeColumn, List.append_eq]
      rw [ih vs r2 o2 i (by simpa using h)]

theorem applyMaskingCol_absent (p : Policy) (header : List String) (tm : TokenMap)
    (rows : List (List (Option String))) (c : String)
    (h : findIdx header c = none) :
    applyMaskingCol p header tm rows c = (rows, tm) := by
  simp [applyMaskingCol, h]

theorem applyMaskingCol_append (p : Policy) (header : List String) (tm : TokenMap)
    (r1 r2 : List (List (Option String))) (c : String) :
    applyMaskingCol p header tm (r1 ++ r2) c =
      ((applyMaskingCol p header tm r1 c).1 ++
          (applyMaskingCol p header (applyMaskingCol p header tm r1 c).2 r2 c).1,
        (applyMaskingCol p header (applyMaskingCol p header tm r1 c).2 r2 c).2) := by
  cases hf : findIdx header c with
  | none => simp [applyMaskingCol, hf]
  | some i =>
    by_cases hg : p.method = Method.regexMask ∧ p.regexOk = false
    · simp [applyMaskingCol, hf, hg]
    · have hsp := applyColumn_append p tm
        (r1.map fun row => cellToText (cellAt row i))
        (r2.map fun row => cellToText (cellAt row i))
      have hwr := writeColumn_append r1
        (applyColumn p tm (r1.map fun row => cellToText (cellAt row i))).1 r2
        (applyColumn p (applyColumn p tm (r1.map fun row => cellToText (cellAt row i))).2
          (r2.map fun row => cellToText (cellAt row i))).1 i
        (by rw [applyColumn_length, List.length_map])
      simp [applyMaskingCol, hf, hg, List.map_append, hsp, hwr]

theorem applyMasking_cons (p : Policy) (c : String) (rest header : List String)
    (tm : TokenMap) (rows : List (List (Option String))) :
    applyMasking p (c :: rest) header tm rows =
      applyMasking p rest header (applyMaskingCol p header tm rows c).2
        (applyMaskingCol p header tm rows c).1 := rfl

theorem applyColumn_nil (p : Policy) (tm : TokenMap) :
    applyColumn p tm [] = ([], tm) := by
  cases hm : p.method <;> simp [applyColumn, hm, tokenizeList, tokenizeGo]

theorem applyMaskingCol_nil_rows (p : Policy) (header : List String)
    (tm : TokenMap) (c : String) :
    applyMaskingCol p header tm [] c = ([], tm) := by
  cases hf : findIdx header c with
  | none => simp [applyMaskingCol, hf]
  | some i =>
    by_cases hg : p.method = Method.regexMask ∧ p.regexOk = false
    · simp [applyMaskingCol, hf, hg]
    · simp [applyMaskingCol, hf, hg, applyColumn_nil, writeColumn]

theorem applyMasking_nil_rows :
    ∀ (cols : List String) (p : Policy) (header : List String) (tm : TokenMap),
      applyMasking p cols header tm [] = ([], tm) := by
  intro cols
  induction cols with
  | nil => intro p header tm; rfl
  | cons c rest ih =>
    intro p header tm
    rw [applyMasking_cons, applyMaskingCol_nil_rows]
    exact ih p header tm

theorem applyMasking_no_present :
    ∀ (cols : List String) (p : Policy) (header : List String) (tm : TokenMap)
      (rows : List (List (Option String))),
      (∀ c ∈ cols, findIdx header c = none) →
      applyMasking p cols header tm rows = (rows, tm) := by
  intro cols
  induction cols with
  | nil => intro p header tm rows _; rfl
  | cons c rest ih =>
    intro p header tm rows h
    rw [applyMasking_cons, applyMaskingCol_absent p header tm rows c (h c (by simp))]
    exact ih p header tm rows (fun c' hc' => h c' (by simp [hc']))

theorem applyMaskingCol_tm_stateless (p : Policy) (header : List String)
    (tm : TokenMap) (rows : List (List (Option String))) (c : String)
    (h : p.method ≠ Method.tokenize) :
    (applyMaskingCol p header tm rows c).2 = tm := by
  cases hf : findIdx header c with
  | none => simp [applyMaskingCol, hf]
  | some i =>
    by_cases hg : p.method = Method.regexMask ∧ p.regexOk = false
    · simp [applyMaskingCol, hf, hg]
    · simp [applyMaskingCol, hf, hg, applyColumn_tm_stateless p tm _ h]

theorem applyMasking_tm_stateless :
    ∀ (cols : List String) (p : Policy) (header : List String) (tm : TokenMap)
      (rows : List (List (Option String))), p.method ≠ Method.tokenize →
      (applyMasking p cols header tm rows).2 = tm := by
  intro cols
  induction cols with
  | nil => intro p header tm rows _; rfl
  | cons c rest ih =>
    intro p header tm rows h
    rw [applyMasking_cons, ih p header _ _ h,
      applyMaskingCol_tm_stateless p header tm rows c h]

theorem applyMasking_append :
    ∀ (cols : List String) (p : Policy) (header : List String) (tm : TokenMap)
      (r1 r2 : List (List (Option String))),
      (p.method = Method.tokenize →
        (cols.filter (fun c => (findIdx header c).isSome)).length ≤ 1) →
      applyMasking p cols header tm (r1 ++ r2) =
        ((applyMasking p cols header tm r1).1 ++
            (applyMasking p cols header (applyMasking p cols header tm r1).2 r2).1,
          (applyMasking p cols header (applyMasking p cols header tm r1).2 r2).2) := by
  intro cols
  induction cols with
  | nil => intro p header tm r1 r2 _; rfl
  | cons c rest ih =>
    intro p header tm r1 r2 hp
    cases hf : findIdx header c with
    | none =>
      have habs : ∀ (tm' : TokenMap) rows,
          applyMaskingCol p header tm' rows c = (rows, tm') :=
        fun tm' rows => applyMaskingCol_absent p header tm' rows c hf
      have hp' : p.method = Method.tokenize →
          (rest.filter (fun c => (findIdx header c).isSome)).length ≤ 1 := by
        intro hm
        simpa [List.filter_cons, hf] using hp hm
      simp only [applyMasking_cons, habs]
      exact ih p header tm r1 r2 hp'
    | some i =>
      by_cases hm : p.method = Method.tokenize
      · have hfil := hp hm
        have hrest : ∀ c' ∈ rest, findIdx header c' = none := by
          intro c' hc'
          cases hx : findIdx header c' with
          | none => rfl
          | some j =>
            exfalso
            have h1 : c' ∈ rest.filter (fun c => (findIdx header c).isSome) :=
              List.mem_filter.mpr ⟨hc', by simp [hx]⟩
            have h2 : 0 < (rest.filter (fun c => (findIdx header c).isSome)).length :=
              List.length_pos.mpr (List.ne_nil_of_mem h1)
            rw [List.filter_cons] at hfil
            simp only [hf, Option.isSome_some, if_pos, List.length_cons] at hfil
            omega
        rw [applyMasking_cons p c rest header tm (r1 ++ r2),
          applyMaskingCol_append p header tm r1 r2 c,
          applyMasking_no_present rest p header _ _ hrest,
          applyMasking_cons p c rest header tm r1,
          applyMasking_no_present rest p header _ _ hrest]
        rw [applyMasking_cons p c rest header (applyMaskingCol p header tm r1 c).2 r2,
          applyMasking_no_present rest p header _ _ hrest]
      · have hp' : p.method = Method.tokenize →
            (rest.filter (fun c => (findIdx header c).isSome)).length ≤ 1 :=
          fun hmm => absurd hmm hm
        have hstate : ∀ (tm' : TokenMap) rows,
            (applyMaskingCol p header tm' rows c).2 = tm' :=
          fun tm' rows => applyMaskingCol_tm_stateless p header tm' rows c hm
        have hstate2 : ∀ (cols' : List String) (tm' : TokenMap) rows,
            (applyMasking p cols' header tm' rows).2 = tm' :=
          fun cols' tm' rows => applyMasking_tm_stateless cols' p header tm' rows hm
        simp only [applyMasking_cons, applyMaskingCol_append p header tm r1 r2 c,
          hstate]
        rw [ih p header tm (applyMaskingCol p header tm r1 c).1
          (applyMaskingCol p header tm r2 c).1 hp']
        simp only [hstate2]

/-- The streaming loop of `stream_mask_save` (source lines 201-205): each
chunk is masked with the session token map threaded through, and the masked
chunks are appended to the output file in input order (the header line is
written once, before the first chunk, and is not part of the row lists). -/
def maskChunks (p : Policy) (cols header : List String) :
    TokenMap → List (List (List (Option String))) →
      List (List (Option String)) × TokenMap
  | tm, [] => ([], tm)
  | tm, ch :: rest =>
    let r := applyMasking p cols header tm ch
    let rr := maskChunks p cols header r.2 rest
    (r.1 ++ rr.1, rr.2)

/-- Chunked reading `pd.read_csv(..., chunksize=n)`: consecutive batches of
`n` rows
(fuel-driven so that it reduces by evaluation; fuel `l.length` suffices
whenever `n > 0`). -/
def chunksOfAux {α : Type} (n : Nat) : Nat → List α → List (List α)
  | _, [] => []
  | 0, _ :: _ => []
  | fuel + 1, x :: xs => (x :: xs).take n :: chunksOfAux n fuel ((x :: xs).drop n)

def chunksOf {α : Type} (n : Nat) (l : List α) : List (List α) :=
  chunksOfAux n l.length l

theorem chunksOfAux_join {α : Type} (n : Nat) (hn : 0 < n) :
    ∀ (fuel : Nat) (l : List α), l.length ≤ fuel →
      (chunksOfAux n fuel l).flatten = l := by
  intro fuel
  induction fuel with
  | zero =>
    intro l hl
    have : l = [] := List.length_eq_zero.mp (Nat.le_zero.mp hl)
    subst this
    rfl
  | succ fuel ih =>
    intro l hl
    cases l with
    | nil => rfl
    | cons x xs =>
      have hlen : ((x :: xs).drop n).length ≤ fuel := by
        simp only [List.length_drop, List.length_cons]
        simp only [List.length_cons] at hl
        omega
      simp only [chunksOfAux, List.flatten_cons]
      rw [ih ((x :: xs).drop n) hlen, List.take_append_drop]

theorem chunksOf_join {α : Type} (n : Nat) (hn : 0 < n) (l : List α) :
    (chunksOf n l).flatten = l :=
  chunksOfAux_join n hn l.length l (Nat.le_refl _)

theorem maskChunks_join :
    ∀ (chunkList : List (List (List (Option String)))) (p : Policy)
      (cols header : List String) (tm : TokenMap),
      (p.method = Method.tokenize →
        (cols.filter (fun c => (findIdx header c).isSome)).length ≤ 1) →
      maskChunks p cols header tm chunkList =
        applyMasking p cols header tm chunkList.flatten := by
  intro chunkList
  induction chunkList with
  | nil =>
    intro p cols header tm _
    rw [show ([] : List (List (List (Option String)))).flatten = [] from rfl,
      applyMasking_nil_rows]
    rfl
  | cons ch rest ih =>
    intro p cols header tm hp
    show ((applyMasking p cols header tm ch).1 ++
        (maskChunks p cols header (applyMasking p cols header tm ch).2 rest).1,
      (maskChunks p cols header (applyMasking p cols header tm ch).2 rest).2) =
      applyMasking p cols header tm (ch :: rest).flatten
    rw [ih p cols header (applyMasking p cols header tm ch).2 hp,
      show (ch :: rest).flatten = ch ++ rest.flatten from rfl,
      applyMasking_append cols p header tm ch rest.flatten hp]

/-- Claim C6, counterexample: with the tokenize method on two target
columns, one pass tokenizes all of column A before column B, while chunked
processing tokenizes A and B of the first chunk before A of the second, so
the assigned sequence numbers differ: on the 2×2 table
[[a, b], [c, d]] with chunk size 1 the chunked output differs from the
one-pass output (e.g. cell (0, B) gets TKN_0000002 chunked but TKN_0000003
in one pass). -/
theorem chunked_tokenize_two_columns_counterexample :
    (maskChunks (mkPolicy Method.tokenize) ["A", "B"] ["A", "B"] []
        (chunksOf 1 [[some "a", some "b"], [some "c", some "d"]])).1 ≠
      (applyMasking (mkPolicy Method.tokenize) ["A", "B"] ["A", "B"] []
        [[some "a", some "b"], [some "c", some "d"]]).1 := by
  decide

/-- Claim C6 (amended): for every CSV/TSV table, chunk size and masking
policy whose method is stateless (full, partial, hash, regex, preset) or
whose method is tokenize with at most one target column present in the
header, masking in sequential fixed-size row batches (Token Map shared and
accumulating across batches, batches appended in input order) equals
masking the whole table in one pass: the concatenated rows and the final
token map are identical.  With the tokenize method and two or more present
target columns the outputs can differ (see the counterexample). -/
theorem chunked_masking_refines_one_pass_amended
    (p : Policy) (cols header : List String) (tm : TokenMap)
    (rows : List (List (Option String))) (n : Nat) (hn : 0 < n)
    (hp : p.method = Method.tokenize →
      (cols.filter (fun c => (findIdx header c).isSome)).length ≤ 1) :
    maskChunks p cols header tm (chunksOf n rows) =
      applyMasking p cols header tm rows := by
  rw [maskChunks_join (chunksOf n rows) p cols header tm hp, chunksOf_join n hn rows]

theorem chunked_masking_refines_one_pass_amended_witness :
    0 < 2 ∧
    ((mkPolicy Method.full).method = Method.tokenize →
      ((["A"].filter (fun c => (findIdx ["A", "B"] c).isSome)).length ≤ 1)) ∧
    maskChunks (mkPolicy Method.full) ["A"] ["A", "B"] []
        (chunksOf 2 [[some "u", some "p"], [some "v", none], [some "", some "q"]]) =
      applyMasking (mkPolicy Method.full) ["A"] ["A", "B"] []
        [[some "u", some "p"], [some "v", none], [some "", some "q"]] :=
  ⟨by decide, by intro h; exact absurd h (by decide),
    chunked_masking_refines_one_pass_amended (mkPolicy Method.full) ["A"] ["A", "B"]
      [] [[some "u", some "p"], [some "v", none], [some "", some "q"]] 2
      (by decide) (by intro h; exact absurd h (by decide))⟩

/- ---------------------------------------------------------------------
   Claim C9: absent target columns and the frame of the dispatcher
--------------------------------------------------------------------- -/

theorem cellAt_setAt_ne :
    ∀ (r : List (Option String)) (k j : Nat) (v : String), j ≠ k →
      cellAt (setAt r k v) j = cellAt r j := by
  intro r
  induction r with
  | nil => intro k j v _; rfl
  | cons cell rest ih =>
    intro k j v hjk
    cases k with
    | zero =>
      cases j with
      | zero => exact absurd rfl hjk
      | succ j' => rfl
    | succ k' =>
      cases j with
      | zero => rfl
      | succ j' => exact ih k' j' v (fun h => hjk (by rw [h]))

theorem listNth_writeColumn_frame :
    ∀ (rows : List (List (Option String))) (outs : List String) (k j i : Nat),
      outs.length = rows.length → j ≠ k →
      (listNth (writeColumn rows k outs) i).map (fun r => cellAt r j) =
        (listNth rows i).map (fun r => cellAt r j) := by
  intro rows
  induction rows with
  | nil =>
    intro outs k j i h _
    have ho : outs = [] := List.length_eq_zero.mp h
    subst ho
    rfl
  | cons r rs ih =>
    intro outs k j i h hjk
    cases outs with
    | nil => simp at h
    | cons v vs =>
      cases i with
      | zero => simp [writeColumn, listNth, cellAt_setAt_ne r k j v hjk]
      | succ i' =>
        show (listNth (writeColumn rs k vs) i').map (fun r => cellAt r j) =
          (listNth rs i').map (fun r => cellAt r j)
        exact ih vs k j i' (by simpa using h) hjk

theorem applyMaskingCol_frame (p : Policy) (header : List String) (tm : TokenMap)
    (rows : List (List (Option String))) (c : String) (j : Nat)
    (h : findIdx header c ≠ some j) :
    ∀ i, (listNth (applyMaskingCol p header tm rows c).1 i).map (fun r => cellAt r j) =
      (listNth rows i).map (fun r => cellAt r j) := by
  intro i
  cases hf : findIdx header c with
  | none => rw [applyMaskingCol_absent p header tm rows c hf]
  | some k =>
    have hjk : j ≠ k := fun hh => h (by rw [hf, hh])
    by_cases hg : p.method = Method.regexMask ∧ p.regexOk = false
    · simp [applyMaskingCol, hf, hg]
    · simp only [applyMaskingCol, hf, if_neg hg]
      exact listNth_writeColumn_frame rows
        (applyColumn p tm (rows.map fun row => cellToText (cellAt row k))).1 k j i
        (by rw [applyColumn_length, List.length_map]) hjk

theorem applyMasking_frame :
    ∀ (cols : List String) (p : Policy) (header : List String) (tm : TokenMap)
      (rows : List (List (Option String))) (j : Nat),
      (∀ c ∈ cols, findIdx header c ≠ some j) →
      ∀ i, (listNth (applyMasking p cols header tm rows).1 i).map (fun r => cellAt r j) =
        (listNth rows i).map (fun r => cellAt r j) := by
  intro cols
  induction cols with
  | nil => intro p header tm rows j _ i; rfl
  | cons c rest ih =>
    intro p header tm rows j h i
    rw [applyMasking_cons]
    rw [ih p header (applyMaskingCol p header tm rows c).2
      (applyMaskingCol p header tm rows c).1 j (fun c' hc' => h c' (by simp [hc'])) i]
    exact applyMaskingCol_frame p header tm rows c j (h c (by simp)) i

theorem applyMasking_filter_present :
    ∀ (cols : List String) (p : Policy) (header : List String) (tm : TokenMap)
      (rows : List (List (Option String))),
      applyMasking p cols header tm rows =
        applyMasking p (cols.filter (fun c => (findIdx header c).isSome))
          header tm rows := by
  intro cols
  induction cols with
  | nil => intro p header tm rows; rfl
  | cons c rest ih =>
    intro p header tm rows
    rw [List.filter_cons]
    cases hf : findIdx header c with
    | none =>
      simp only [hf, Option.isSome_none, Bool.false_eq_true, if_neg]
      rw [applyMasking_cons, applyMaskingCol_absent p header tm rows c hf]
      exact ih p header tm rows
    | some i =>
      simp only [hf, Option.isSome_some, if_pos]
      rw [applyMasking_cons, applyMasking_cons]
      exact ih p header (applyMaskingCol p header tm rows c).2
        (applyMaskingCol p header tm rows c).1

/-- Claim C9: a target column named in the policy but absent from the table
is skipped silently: the dispatch is total (no error path), the absent name
has no effect on the result (masking with `cols` equals masking with the
present target columns only), and every column of the table whose header
name is not a present target column is returned cell-for-cell unchanged. -/
theorem absent_target_column_frame :
    (∀ (p : Policy) (cols header : List String) (tm : TokenMap)
      (rows : List (List (Option String))),
      applyMasking p cols header tm rows =
        applyMasking p (cols.filter (fun c => (findIdx header c).isSome))
          header tm rows) ∧
    (∀ (p : Policy) (cols header : List String) (tm : TokenMap)
      (rows : List (List (Option String))) (j : Nat),
      (∀ c ∈ cols, findIdx header c ≠ some j) →
      ∀ i, (listNth (applyMasking p cols header tm rows).1 i).map
          (fun r => cellAt r j) =
        (listNth rows i).map (fun r => cellAt r j)) :=
  ⟨fun p cols header tm rows => applyMasking_filter_present cols p header tm rows,
   fun p cols header tm rows j h i => applyMasking_frame cols p header tm rows j h i⟩

theorem absent_target_column_frame_witness :
    applyMasking (mkPolicy Method.full) ["A", "Z"] ["A", "B"] []
        [[some "x", some "y"]] =
      applyMasking (mkPolicy Method.full)
        (["A", "Z"].filter (fun c => (findIdx ["A", "B"] c).isSome)) ["A", "B"] []
        [[some "x", some "y"]] ∧
    ((∀ c ∈ ["A", "Z"], findIdx ["A", "B"] c ≠ some 1) ∧
      (listNth (applyMasking (mkPolicy Method.full) ["A", "Z"] ["A", "B"] []
          [[some "x", some "y"]]).1 0).map (fun r => cellAt r 1) =
        (listNth [[some "x", some "y"]] 0).map (fun r => cellAt r 1)) :=
  ⟨absent_target_column_frame.1 (mkPolicy Method.full) ["A", "Z"] ["A", "B"] []
      [[some "x", some "y"]],
   ⟨by decide,
    absent_target_column_frame.2 (mkPolicy Method.full) ["A", "Z"] ["A", "B"] []
      [[some "x", some "y"]] 1 (by decide) 0⟩⟩

/- ---------------------------------------------------------------------
   Claim C10: the regex mask preserves cell length
--------------------------------------------------------------------- -/

/-- Decomposition of a cell by the regex engine for `re.sub`: a sequence of
segments, flagged `true` for a non-overlapping match of the pattern and
`false` for an unmatched stretch, concatenating to the cell.  The engine
(`re`, an external library) produces the decomposition; the embedding
quantifies over every possible one. -/
def segsInput (segs : List (String × Bool)) : String :=
  segs.foldr (fun sb acc => sb.1 ++ acc) ""

/-- Substitution `reg.sub(lambda m: "*" * len(m.group(0)), x)` (source lines
114 and 154) over a decomposition of `x`: unmatched stretches are kept
verbatim and each match is replaced by `'*'` repeated the match's length. -/
def pyReSubStars (segs : List (String × Bool)) : String :=
  segs.foldr
    (fun sb acc => (if sb.2 then replChar '*' sb.1.data.length else sb.1) ++ acc) ""

/-- The regex branch applied to one cell: `reg.sub(...) if x else ""`. -/
def maskRegexCell (segs : List (String × Bool)) : String :=
  if segsInput segs = "" then "" else pyReSubStars segs

theorem pyReSubStars_length :
    ∀ segs : List (String × Bool),
      (pyReSubStars segs).data.length = (segsInput segs).data.length := by
  intro segs
  induction segs with
  | nil => rfl
  | cons sb rest ih =>
    obtain ⟨s, b⟩ := sb
    have hcell :
        (if b = true then replChar '*' s.data.length else s).data.length =
          s.data.length := by
      cases b
      · simp
      · simp [replChar]
    show ((if b = true then replChar '*' s.data.length else s)
        ++ pyReSubStars rest).data.length = (s ++ segsInput rest).data.length
    rw [str_data_append, str_data_append, List.length_append, List.length_append,
      hcell, ih]

/-- Claim C10: the regex masking method preserves the cell's length: each
non-overlapping match is replaced by `'*'` repeated exactly the match's
length and unmatched text is kept, so the output has the length of the
input, for every decomposition the engine can produce — hence for every
valid pattern and every cell. -/
theorem regex_mask_length_preserving (segs : List (String × Bool)) :
    (maskRegexCell segs).data.length = (segsInput segs).data.length := by
  by_cases h : segsInput segs = ""
  · simp [maskRegexCell, h]
  · simp only [maskRegexCell, if_neg h]
    exact pyReSubStars_length segs
